import Mathlib

/-!
Verification of the resume-editor engine of `granticusmaximus/experiencer`.

The repository's `src/` holds the React component layer
(`ResumeNodeBase.tsx`, `Header.tsx`, `controls/ToolbarOptions.tsx`) and the
`ResumeState` interface. The node store (`utility/NodeTree`), the hover
tracker (`utility/HoverTracker`) and the top-level `ResumeComponent` are not
part of the sources; where a definition embeds one of those missing pieces it
is modelled from the specification and its doc comment says so.

Addresses (`IdType` / `HierarchicalId`) are lists of sibling indices from the
root; a resume document is a forest of nodes.
-/

set_option autoImplicit false

namespace Experiencer

/-- Editor mode, from the string union used by `ResumeNodeBase`
(`'printing'`, `'changingTemplate'`, and the ordinary interactive mode). -/
inductive EditorMode where
  | normal
  | printing
  | changingTemplate
deriving DecidableEq, Repr

/-- Hierarchical address: the sequence of sibling indices from the root list
down to a node (`IdType` in `utility/HoverTracker`). -/
abbrev IdType := List Nat

/-- Modelled from the spec: a resume node of the missing `utility/NodeTree`
module — a permanent `uuid`, the `hidden` flag, a `data` mapping from field
names to text values, and an ordered list of children. -/
inductive ResumeNode where
  | mk : String → Bool → List (String × String) → List ResumeNode → ResumeNode
deriving Repr

def ResumeNode.uuid : ResumeNode → String
  | .mk u _ _ _ => u

def ResumeNode.hidden : ResumeNode → Bool
  | .mk _ h _ _ => h

def ResumeNode.data : ResumeNode → List (String × String)
  | .mk _ _ d _ => d

def ResumeNode.children : ResumeNode → List ResumeNode
  | .mk _ _ _ c => c

/-- Replace a node's children list, keeping every other field. -/
def ResumeNode.withChildren : ResumeNode → List ResumeNode → ResumeNode
  | .mk u h d _, c => .mk u h d c

@[simp] theorem ResumeNode.uuid_withChildren (n : ResumeNode) (c : List ResumeNode) :
    (n.withChildren c).uuid = n.uuid := by
  cases n; rfl

@[simp] theorem ResumeNode.hidden_withChildren (n : ResumeNode) (c : List ResumeNode) :
    (n.withChildren c).hidden = n.hidden := by
  cases n; rfl

@[simp] theorem ResumeNode.data_withChildren (n : ResumeNode) (c : List ResumeNode) :
    (n.withChildren c).data = n.data := by
  cases n; rfl

@[simp] theorem ResumeNode.children_withChildren (n : ResumeNode) (c : List ResumeNode) :
    (n.withChildren c).children = c := by
  cases n; rfl

@[simp] theorem ResumeNode.withChildren_children (n : ResumeNode) :
    n.withChildren n.children = n := by
  cases n; rfl

/-- Modelled from the spec: pure address lookup inside one node — an empty
remaining path designates the node itself, otherwise descend into the child
at the next index. -/
def resolveIn : List Nat → ResumeNode → Option ResumeNode
  | [], n => some n
  | i :: rest, n =>
    match n.children[i]? with
    | none => none
    | some c => resolveIn rest c

/-- Modelled from the spec: `resolve(address) -> Node | none` against the
root forest; the empty address designates no node. -/
def resolve : List Nat → List ResumeNode → Option ResumeNode
  | [], _ => none
  | i :: rest, roots =>
    match roots[i]? with
    | none => none
    | some n => resolveIn rest n

/-- Modelled from the spec: rewrite the node at the given path inside one
node with `f`; fails (returning `none`, with no partial change) when the
path does not resolve. -/
def modifyIn : List Nat → (ResumeNode → ResumeNode) → ResumeNode → Option ResumeNode
  | [], f, n => some (f n)
  | i :: rest, f, n =>
    match n.children[i]? with
    | none => none
    | some c => (modifyIn rest f c).map (fun c2 => n.withChildren (n.children.set i c2))

/-- Modelled from the spec: rewrite the node at the given address in the
root forest with `f`; all-or-nothing. -/
def modifyForest : List Nat → (ResumeNode → ResumeNode) → List ResumeNode → Option (List ResumeNode)
  | [], _, _ => none
  | i :: rest, f, roots =>
    match roots[i]? with
    | none => none
    | some n => (modifyIn rest f n).map (fun n2 => roots.set i n2)

@[simp] theorem resolveIn_nil (n : ResumeNode) : resolveIn [] n = some n := rfl

@[simp] theorem modifyIn_nil (f : ResumeNode → ResumeNode) (n : ResumeNode) :
    modifyIn [] f n = some (f n) := rfl

theorem resolveIn_cons (i : Nat) (rest : List Nat) (n : ResumeNode) :
    resolveIn (i :: rest) n =
      match n.children[i]? with
      | none => none
      | some c => resolveIn rest c := rfl

theorem modifyIn_cons (i : Nat) (rest : List Nat) (f : ResumeNode → ResumeNode) (n : ResumeNode) :
    modifyIn (i :: rest) f n =
      match n.children[i]? with
      | none => none
      | some c => (modifyIn rest f c).map (fun c2 => n.withChildren (n.children.set i c2)) := rfl

@[simp] theorem ResumeNode.withChildren_withChildren (n : ResumeNode) (c d : List ResumeNode) :
    (n.withChildren c).withChildren d = n.withChildren d := by
  cases n; rfl

/-- Setting an index of a list to the element already there is the identity. -/
theorem List.set_self_of_getElem? {α : Type} (l : List α) (i : Nat) (a : α)
    (h : l[i]? = some a) : l.set i a = l := by
  induction l generalizing i with
  | nil => simp at h
  | cons x xs ih =>
    cases i with
    | zero =>
      simp at h
      simp [h]
    | succ j =>
      simp at h
      simp [List.set]
      exact ih j h

theorem modifyIn_eq_none_iff (p : List Nat) (f : ResumeNode → ResumeNode) (n : ResumeNode) :
    modifyIn p f n = none ↔ resolveIn p n = none := by
  induction p generalizing n with
  | nil => simp
  | cons i rest ih =>
    rw [modifyIn_cons, resolveIn_cons]
    cases h : n.children[i]? with
    | none => simp
    | some c => simp [ih]

theorem resolveIn_modifyIn_self (p : List Nat) (f : ResumeNode → ResumeNode)
    (n n' : ResumeNode) (hmod : modifyIn p f n = some n') :
    resolveIn p n' = (resolveIn p n).map f := by
  induction p generalizing n n' with
  | nil =>
    simp at hmod
    simp [← hmod]
  | cons i rest ih =>
    rw [modifyIn_cons] at hmod
    cases h : n.children[i]? with
    | none => simp [h] at hmod
    | some c =>
      simp [h] at hmod
      obtain ⟨c', hc', hn'⟩ := hmod
      have hlt : i < n.children.length := (List.getElem?_eq_some.mp h).1
      rw [resolveIn_cons, resolveIn_cons, h, ← hn']
      simp [List.getElem?_set_self hlt]
      exact ih c c' hc'

theorem modifyIn_comp (p : List Nat) (f g : ResumeNode → ResumeNode)
    (n n' : ResumeNode) (hmod : modifyIn p f n = some n') :
    modifyIn p g n' = modifyIn p (fun x => g (f x)) n := by
  induction p generalizing n n' with
  | nil =>
    simp at hmod
    simp [← hmod]
  | cons i rest ih =>
    rw [modifyIn_cons] at hmod
    cases h : n.children[i]? with
    | none => simp [h] at hmod
    | some c =>
      simp [h] at hmod
      obtain ⟨c', hc', hn'⟩ := hmod
      have hlt : i < n.children.length := (List.getElem?_eq_some.mp h).1
      rw [modifyIn_cons, modifyIn_cons, h, ← hn']
      simp [List.getElem?_set_self hlt, ih c c' hc']

theorem modifyIn_id (p : List Nat) (n m : ResumeNode) (hres : resolveIn p n = some m) :
    modifyIn p (fun x => x) n = some n := by
  induction p generalizing n m with
  | nil => simp
  | cons i rest ih =>
    rw [resolveIn_cons] at hres
    cases h : n.children[i]? with
    | none => simp [h] at hres
    | some c =>
      simp [h] at hres
      rw [modifyIn_cons, h]
      simp [ih c m hres, List.set_self_of_getElem? _ _ _ h]

theorem resolveIn_modifyIn_ne (p : List Nat) (f : ResumeNode → ResumeNode)
    (hch : ∀ m, (f m).children = m.children)
    (n n' : ResumeNode) (hmod : modifyIn p f n = some n')
    (q : List Nat) (hq : q ≠ p) :
    (resolveIn q n').map ResumeNode.uuid = (resolveIn q n).map ResumeNode.uuid ∧
    (resolveIn q n').map ResumeNode.data = (resolveIn q n).map ResumeNode.data ∧
    (resolveIn q n').map ResumeNode.hidden = (resolveIn q n).map ResumeNode.hidden := by
  induction p generalizing n n' q with
  | nil =>
    simp at hmod
    cases q with
    | nil => exact absurd rfl hq
    | cons j q2 =>
      rw [← hmod, resolveIn_cons, resolveIn_cons, hch]
      exact ⟨rfl, rfl, rfl⟩
  | cons i rest ih =>
    rw [modifyIn_cons] at hmod
    cases h : n.children[i]? with
    | none => simp [h] at hmod
    | some c =>
      simp [h] at hmod
      obtain ⟨c', hc', hn'⟩ := hmod
      have hlt : i < n.children.length := (List.getElem?_eq_some.mp h).1
      cases q with
      | nil => simp [← hn']
      | cons j q2 =>
        by_cases hji : j = i
        · subst hji
          have hq2 : q2 ≠ rest := fun hcontra => hq (by rw [hcontra])
          rw [resolveIn_cons, resolveIn_cons, h, ← hn']
          simp [List.getElem?_set_self hlt]
          exact ih c c' hc' q2 hq2
        · rw [resolveIn_cons, resolveIn_cons, ← hn']
          simp [List.getElem?_set_ne (fun hcontra => hji hcontra.symm)]

theorem resolve_cons (i : Nat) (rest : List Nat) (roots : List ResumeNode) :
    resolve (i :: rest) roots =
      match roots[i]? with
      | none => none
      | some n => resolveIn rest n := rfl

theorem modifyForest_cons (i : Nat) (rest : List Nat) (f : ResumeNode → ResumeNode)
    (roots : List ResumeNode) :
    modifyForest (i :: rest) f roots =
      match roots[i]? with
      | none => none
      | some n => (modifyIn rest f n).map (fun n2 => roots.set i n2) := rfl

theorem modifyForest_eq_none_iff (a : List Nat) (f : ResumeNode → ResumeNode)
    (t : List ResumeNode) :
    modifyForest a f t = none ↔ resolve a t = none := by
  cases a with
  | nil => simp [modifyForest, resolve]
  | cons i rest =>
    rw [modifyForest_cons, resolve_cons]
    cases h : t[i]? with
    | none => simp
    | some n => simp [modifyIn_eq_none_iff]

theorem resolve_modifyForest_self (a : List Nat) (f : ResumeNode → ResumeNode)
    (t t' : List ResumeNode) (hmod : modifyForest a f t = some t') :
    resolve a t' = (resolve a t).map f := by
  cases a with
  | nil => simp [modifyForest] at hmod
  | cons i rest =>
    rw [modifyForest_cons] at hmod
    cases h : t[i]? with
    | none => simp [h] at hmod
    | some n =>
      simp [h] at hmod
      obtain ⟨n', hn', ht'⟩ := hmod
      have hlt : i < t.length := (List.getElem?_eq_some.mp h).1
      rw [resolve_cons, resolve_cons, h, ← ht']
      simp [List.getElem?_set_self hlt]
      exact resolveIn_modifyIn_self rest f n n' hn'

theorem modifyForest_comp (a : List Nat) (f g : ResumeNode → ResumeNode)
    (t t' : List ResumeNode) (hmod : modifyForest a f t = some t') :
    modifyForest a g t' = modifyForest a (fun x => g (f x)) t := by
  cases a with
  | nil => simp [modifyForest] at hmod
  | cons i rest =>
    rw [modifyForest_cons] at hmod
    cases h : t[i]? with
    | none => simp [h] at hmod
    | some n =>
      simp [h] at hmod
      obtain ⟨n', hn', ht'⟩ := hmod
      have hlt : i < t.length := (List.getElem?_eq_some.mp h).1
      rw [modifyForest_cons, modifyForest_cons, h, ← ht']
      simp [List.getElem?_set_self hlt, modifyIn_comp rest f g n n' hn']

theorem modifyForest_id (a : List Nat) (t : List ResumeNode) (n : ResumeNode)
    (hres : resolve a t = some n) :
    modifyForest a (fun x => x) t = some t := by
  cases a with
  | nil => simp [resolve] at hres
  | cons i rest =>
    rw [resolve_cons] at hres
    cases h : t[i]? with
    | none => simp [h] at hres
    | some m =>
      simp [h] at hres
      rw [modifyForest_cons, h]
      simp [modifyIn_id rest m n hres, List.set_self_of_getElem? _ _ _ h]

theorem resolve_modifyForest_ne (a : List Nat) (f : ResumeNode → ResumeNode)
    (hch : ∀ m, (f m).children = m.children)
    (t t' : List ResumeNode) (hmod : modifyForest a f t = some t')
    (b : List Nat) (hb : b ≠ a) :
    (resolve b t').map ResumeNode.uuid = (resolve b t).map ResumeNode.uuid ∧
    (resolve b t').map ResumeNode.data = (resolve b t).map ResumeNode.data ∧
    (resolve b t').map ResumeNode.hidden = (resolve b t).map ResumeNode.hidden := by
  cases a with
  | nil => simp [modifyForest] at hmod
  | cons i rest =>
    rw [modifyForest_cons] at hmod
    cases h : t[i]? with
    | none => simp [h] at hmod
    | some n =>
      simp [h] at hmod
      obtain ⟨n', hn', ht'⟩ := hmod
      have hlt : i < t.length := (List.getElem?_eq_some.mp h).1
      cases b with
      | nil => simp [← ht', resolve]
      | cons j q2 =>
        by_cases hji : j = i
        · subst hji
          have hq2 : q2 ≠ rest := fun hcontra => hb (by rw [hcontra])
          rw [resolve_cons, resolve_cons, h, ← ht']
          simp [List.getElem?_set_self hlt]
          exact resolveIn_modifyIn_ne rest f hch n n' hn' q2 hq2
        · rw [resolve_cons, resolve_cons, ← ht']
          simp [List.getElem?_set_ne (fun hcontra => hji hcontra.symm)]

/-- Resolution success is preserved by a children-preserving rewrite:
packaged form via the `uuid` projection. -/
theorem resolve_modifyForest_isSome (a : List Nat) (f : ResumeNode → ResumeNode)
    (t t' : List ResumeNode) (hmod : modifyForest a f t = some t') (b : List Nat)
    (hch : ∀ m, (f m).children = m.children) :
    (resolve b t').isSome = (resolve b t).isSome := by
  by_cases hb : b = a
  · subst hb
    rw [resolve_modifyForest_self b f t t' hmod]
    cases resolve b t <;> simp
  · have h3 := (resolve_modifyForest_ne a f hch t t' hmod b hb).1
    cases h1 : resolve b t' <;> cases h2 : resolve b t <;>
      simp [h1, h2] at h3 ⊢

/-- Replace the first binding of `k` (or append one): the merge step of
`update` on a node's `data` mapping. -/
def setKey (k v : String) : List (String × String) → List (String × String)
  | [] => [(k, v)]
  | (k2, v2) :: rest => if k2 = k then (k, v) :: rest else (k2, v2) :: setKey k v rest

/-- First binding of `k` in a `data` mapping. -/
def lookupKey (k : String) : List (String × String) → Option String
  | [] => none
  | (k2, v2) :: rest => if k2 = k then some v2 else lookupKey k rest

theorem lookupKey_setKey_self (k v : String) (d : List (String × String)) :
    lookupKey k (setKey k v d) = some v := by
  induction d with
  | nil => simp [setKey, lookupKey]
  | cons p rest ih =>
    obtain ⟨k2, v2⟩ := p
    by_cases hk : k2 = k
    · simp [setKey, lookupKey, hk]
    · simp [setKey, lookupKey, hk, ih]

theorem setKey_idem (k v : String) (d : List (String × String)) :
    setKey k v (setKey k v d) = setKey k v d := by
  induction d with
  | nil => simp [setKey]
  | cons p rest ih =>
    obtain ⟨k2, v2⟩ := p
    by_cases hk : k2 = k
    · simp [setKey, hk]
    · simp [setKey, hk, ih]

/-- Write `v` under `k` in the node's `data`, keeping every other field. -/
def ResumeNode.setData (k v : String) : ResumeNode → ResumeNode
  | .mk u h d c => .mk u h (setKey k v d) c

@[simp] theorem ResumeNode.uuid_setData (k v : String) (n : ResumeNode) :
    (n.setData k v).uuid = n.uuid := by
  cases n; rfl

@[simp] theorem ResumeNode.hidden_setData (k v : String) (n : ResumeNode) :
    (n.setData k v).hidden = n.hidden := by
  cases n; rfl

@[simp] theorem ResumeNode.data_setData (k v : String) (n : ResumeNode) :
    (n.setData k v).data = setKey k v n.data := by
  cases n; rfl

@[simp] theorem ResumeNode.children_setData (k v : String) (n : ResumeNode) :
    (n.setData k v).children = n.children := by
  cases n; rfl

theorem setData_setData (k v : String) (n : ResumeNode) :
    (n.setData k v).setData k v = n.setData k v := by
  cases n
  simp [ResumeNode.setData, setKey_idem]

/-- The one error of the engine (spec §7). -/
inductive EngineError where
  | invalidAddress
deriving DecidableEq, Repr

/-- Modelled from the spec: `update(address, key, value)` of the missing
`utility/NodeTree` store — merges `value` into the resolved node's
`data[key]`, failing with `InvalidAddress` when the address does not
resolve. -/
def update (a : List Nat) (k v : String) (t : List ResumeNode) :
    Except EngineError (List ResumeNode) :=
  match modifyForest a (fun n => n.setData k v) t with
  | none => .error .invalidAddress
  | some t2 => .ok t2

/-- Run `update` against the caller's current tree: on failure the error is
returned synchronously and the caller keeps the tree it already had. -/
def applyUpdate (a : List Nat) (k v : String) (t : List ResumeNode) :
    List ResumeNode × Option EngineError :=
  match update a k v t with
  | .error e => (t, some e)
  | .ok t2 => (t2, none)

/-- Flip the `hidden` flag, keeping every other field. -/
def flipHidden : ResumeNode → ResumeNode
  | .mk u h d c => .mk u (!h) d c

@[simp] theorem uuid_flipHidden (n : ResumeNode) : (flipHidden n).uuid = n.uuid := by
  cases n; rfl

@[simp] theorem hidden_flipHidden (n : ResumeNode) : (flipHidden n).hidden = !n.hidden := by
  cases n; rfl

@[simp] theorem data_flipHidden (n : ResumeNode) : (flipHidden n).data = n.data := by
  cases n; rfl

@[simp] theorem children_flipHidden (n : ResumeNode) : (flipHidden n).children = n.children := by
  cases n; rfl

@[simp] theorem flipHidden_flipHidden (n : ResumeNode) : flipHidden (flipHidden n) = n := by
  cases n; simp [flipHidden]

/-- Modelled from the spec: `toggleHidden(address)` — flips the resolved
node's `hidden` flag (`ResumeNodeBase.toggleHidden` routes the flip through
the tree-updating callback). -/
def toggleHidden (a : List Nat) (t : List ResumeNode) : Option (List ResumeNode) :=
  modifyForest a flipHidden t

/-- Session-wide interaction state (`ResumeState`): editor mode, the hovered
address (`hoverNode`), the selected node's permanent uuid, and the global
edit flag. -/
structure SessionState where
  mode : EditorMode
  hoverNode : Option IdType
  selectedUuid : Option String
  editFlag : Bool
deriving DecidableEq, Repr

/-- `ResumeNodeBase.isPrinting`: the session is in the non-interactive
printing mode. -/
def isPrinting (mode : EditorMode) : Bool :=
  mode == .printing

/-- `ResumeNodeBase.isEditable`: interaction is enabled — neither printing
nor changing the template. -/
def isEditable (mode : EditorMode) : Bool :=
  !isPrinting mode && !(mode == .changingTemplate)

/-- Modelled from the spec: `hoverOver(id)` of the missing
`utility/HoverTracker` — sets hover to `id`, a no-op in the non-interactive
printing mode. -/
def hoverOver (id : IdType) (s : SessionState) : SessionState :=
  if isPrinting s.mode then s else { s with hoverNode := some id }

/-- Modelled from the spec: `hoverOut(id)` of the missing
`utility/HoverTracker` — clears hover only when the stored hover equals
`id`. -/
def hoverOut (id : IdType) (s : SessionState) : SessionState :=
  if s.hoverNode == some id then { s with hoverNode := none } else s

/-- Modelled from the spec: the tracker's `isHovering(id)` — the stored
hover equals `id`. -/
def trackerIsHovering (id : IdType) (s : SessionState) : Bool :=
  s.hoverNode == some id

/-- Modelled from the spec: `isSelectBlocked(id)` of the missing
`utility/HoverTracker` — a hover address exists and `id` is a strict prefix
of it. -/
def isSelectBlocked (id : IdType) (s : SessionState) : Bool :=
  match s.hoverNode with
  | none => false
  | some h => id.isPrefixOf h && id != h

/-- Modelled from the spec: `isSelected(uuid)` — the stored selection equals
`uuid`. -/
def isSelected (uuid : String) (s : SessionState) : Bool :=
  s.selectedUuid == some uuid

/-- `ResumeNodeBase.setSelected` combined with the spec's `updateSelected`:
when the node (of address `id` and permanent id `uuid`) is neither already
selected nor select-blocked, selection becomes its `uuid`; otherwise
nothing happens. -/
def setSelected (id : IdType) (uuid : String) (s : SessionState) : SessionState :=
  if !isSelected uuid s && !isSelectBlocked id s then
    { s with selectedUuid := some uuid }
  else s

/-- `ResumeNodeBase.isHovering` (the getter): the tracker reports `id`
hovered and the session is not printing. -/
def nodeIsHovering (id : IdType) (s : SessionState) : Bool :=
  trackerIsHovering id s && !isPrinting s.mode

/-- `ResumeNodeBase.isEditing`, with the `isEditing` prop threaded as the
spec's single global edit flag (modelled from the spec — the threading
happens in the missing `ResumeComponent`): the node renders its editable
form only when the global flag is set and it is the selected node. -/
def nodeRendersEditableForm (uuid : String) (s : SessionState) : Bool :=
  s.editFlag && isSelected uuid s

/-- The hover/select trigger props a node attaches
(`ResumeNodeBase.selectTriggerProps`): which handlers are present. -/
structure TriggerProps where
  hasOnClick : Bool
  hasOnMouseEnter : Bool
  hasOnMouseLeave : Bool
deriving DecidableEq, Repr

/-- `ResumeNodeBase.selectTriggerProps`: the empty object when the node is
not editable, otherwise click, mouse-enter and mouse-leave handlers. -/
def selectTriggerProps (mode : EditorMode) : TriggerProps :=
  if isEditable mode then ⟨true, true, true⟩ else ⟨false, false, false⟩

/-- A mouse-enter event delivered to a node: the tracker's `hoverOver` runs
only if the node attached an `onMouseEnter` handler. -/
def dispatchMouseEnter (id : IdType) (s : SessionState) : SessionState :=
  if (selectTriggerProps s.mode).hasOnMouseEnter then hoverOver id s else s

/-- A mouse-leave event delivered to a node: the tracker's `hoverOut` runs
only if the node attached an `onMouseLeave` handler. -/
def dispatchMouseLeave (id : IdType) (s : SessionState) : SessionState :=
  if (selectTriggerProps s.mode).hasOnMouseLeave then hoverOut id s else s

/-- A click delivered to a node: `setSelected` runs only if the node
attached an `onClick` handler. -/
def dispatchClick (id : IdType) (uuid : String) (s : SessionState) : SessionState :=
  if (selectTriggerProps s.mode).hasOnClick then setSelected id uuid s else s

/-- The two-node example document: root A with single child B. -/
def nodeB : ResumeNode := .mk "uuid-B" false [] []

def nodeA : ResumeNode := .mk "uuid-A" false [] [nodeB]

def exampleTree : List ResumeNode := [nodeA]

/-- Fresh interactive session: nothing hovered, nothing selected. -/
def initialState : SessionState :=
  { mode := .normal, hoverNode := none, selectedUuid := none, editFlag := false }

/-- A session in the printing mode, with a stored hover left over. -/
def printingState : SessionState :=
  { mode := .printing, hoverNode := some [0], selectedUuid := none, editFlag := false }

/-- A session in the template-changing mode, hovering over B. -/
def changingTemplateState : SessionState :=
  { mode := .changingTemplate, hoverNode := some [0, 0], selectedUuid := none, editFlag := false }

/-- A session with node A selected and the global edit flag set. -/
def editingState : SessionState :=
  { mode := .normal, hoverNode := none, selectedUuid := some "uuid-A", editFlag := true }

/-- C1: `isSelectBlocked(a)` holds iff a hover address `h` exists with `a` a
strict prefix of `h`; a node is never blocked by its own hover or an
ancestor's hover; concretely, with root list `[A(children=[B])]`, after
`hoverOver([0,0])` the address `[0]` is blocked and `[0,0]` is not. -/
theorem isSelectBlocked_spec (a : IdType) (s : SessionState) :
    (isSelectBlocked a s = true ↔
      ∃ h rest, s.hoverNode = some h ∧ h = a ++ rest ∧ rest ≠ []) ∧
    (∀ h, s.hoverNode = some h → (∃ rest, a = h ++ rest) →
      isSelectBlocked a s = false) ∧
    isSelectBlocked [0] (hoverOver [0, 0] initialState) = true ∧
    isSelectBlocked [0, 0] (hoverOver [0, 0] initialState) = false := by
  refine ⟨?_, ?_, by decide, by decide⟩
  · unfold isSelectBlocked
    cases hh : s.hoverNode with
    | none => simp
    | some h =>
      simp only [Bool.and_eq_true, List.isPrefixOf_iff_prefix, bne_iff_ne, Option.some.injEq]
      constructor
      · rintro ⟨⟨rest, hrest⟩, hne⟩
        refine ⟨h, rest, rfl, hrest.symm, ?_⟩
        rintro rfl
        simp at hrest
        exact hne hrest
      · rintro ⟨h2, rest, hh2, hcat, hrest⟩
        subst hh2
        subst hcat
        constructor
        · exact ⟨rest, rfl⟩
        · intro hcontra
          apply hrest
          have := congrArg List.length hcontra
          simp at this
          exact this
  · rintro h hh ⟨rest, hcat⟩
    unfold isSelectBlocked
    rw [hh]
    by_cases heq : a = h
    · simp [heq]
    · have : a.isPrefixOf h = false := by
        rw [Bool.eq_false_iff]
        intro hpre
        have hpre2 : a <+: h := List.isPrefixOf_iff_prefix.mp hpre
        have hpre3 : h <+: a := ⟨rest, hcat.symm⟩
        exact heq (hpre2.eq_of_length (hpre2.length_le.antisymm hpre3.length_le))
      simp [this]

/-- C1 witness: a node is not blocked by an ancestor's hover — with hover
`[0]`, address `[0, 1]` is not blocked. -/
theorem isSelectBlocked_spec_witness :
    isSelectBlocked [0, 1] { initialState with hoverNode := some [0] } = false :=
  (isSelectBlocked_spec [0, 1] { initialState with hoverNode := some [0] }).2.1
    [0] rfl ⟨[1], rfl⟩

/-- C2: a click selects the node's `uuid` when the node is neither already
selected nor select-blocked, and is a no-op otherwise; concretely, after
`hoverOver([0,0])` a click on `[0]` leaves selection unset and a subsequent
click on `[0,0]` selects B's uuid. -/
theorem setSelected_spec (id : IdType) (uuid : String) (s : SessionState) :
    (isSelected uuid s = false → isSelectBlocked id s = false →
      setSelected id uuid s = { s with selectedUuid := some uuid }) ∧
    (isSelected uuid s = true ∨ isSelectBlocked id s = true →
      setSelected id uuid s = s) ∧
    (setSelected [0] "uuid-A" (hoverOver [0, 0] initialState)).selectedUuid = none ∧
    (setSelected [0, 0] "uuid-B"
        (setSelected [0] "uuid-A" (hoverOver [0, 0] initialState))).selectedUuid
      = some "uuid-B" ∧
    (resolve [0, 0] exampleTree).map ResumeNode.uuid = some "uuid-B" := by
  refine ⟨?_, ?_, by decide, by decide, by rfl⟩
  · intro h1 h2
    unfold setSelected
    simp [h1, h2]
  · intro h
    unfold setSelected
    rcases h with h | h <;> simp [h]

/-- C2 witness: from the fresh session, clicking B selects its uuid. -/
theorem setSelected_spec_witness :
    setSelected [0, 0] "uuid-B" initialState
      = { initialState with selectedUuid := some "uuid-B" } :=
  (setSelected_spec [0, 0] "uuid-B" initialState).1 (by decide) (by decide)

/-- C3: `hoverOut(id)` clears the hover only when the stored hover equals
`id`; a stale leave event for a different id leaves the state unchanged. -/
theorem hoverOut_spec (id : IdType) (s : SessionState) :
    (s.hoverNode = some id → hoverOut id s = { s with hoverNode := none }) ∧
    (s.hoverNode ≠ some id → hoverOut id s = s) := by
  constructor
  · intro h
    unfold hoverOut
    simp [h]
  · intro h
    unfold hoverOut
    simp [h]

/-- C3 witness: leaving the hovered node clears hover; a stale leave from
`[0]` after a newer enter on `[0, 0]` changes nothing. -/
theorem hoverOut_spec_witness :
    hoverOut [0, 0] (hoverOver [0, 0] initialState)
        = { hoverOver [0, 0] initialState with hoverNode := none } ∧
    hoverOut [0] (hoverOver [0, 0] initialState) = hoverOver [0, 0] initialState :=
  ⟨(hoverOut_spec [0, 0] (hoverOver [0, 0] initialState)).1 (by decide),
   (hoverOut_spec [0] (hoverOver [0, 0] initialState)).2 (by decide)⟩

/-- C6: in the printing mode a node attaches no handlers, every hover or
click call delivered to it leaves the state unchanged (silently absorbed),
`hoverOver` itself sets no hover, and the node never reports itself
hovering, whatever hover the tracker stores. -/
theorem printing_mode_noop (id : IdType) (uuid : String) (s : SessionState)
    (hmode : s.mode = .printing) :
    dispatchMouseEnter id s = s ∧
    dispatchMouseLeave id s = s ∧
    dispatchClick id uuid s = s ∧
    hoverOver id s = s ∧
    nodeIsHovering id s = false ∧
    selectTriggerProps s.mode = ⟨false, false, false⟩ := by
  refine ⟨?_, ?_, ?_, ?_, ?_, ?_⟩ <;>
    simp [dispatchMouseEnter, dispatchMouseLeave, dispatchClick, hoverOver,
      nodeIsHovering, selectTriggerProps, isEditable, isPrinting, hmode]

/-- C6 witness: in a printing session with a stored hover on `[0]`, all
calls are absorbed and the node at `[0]` does not report hovering. -/
theorem printing_mode_noop_witness :
    dispatchMouseEnter [0] printingState = printingState ∧
    dispatchMouseLeave [0] printingState = printingState ∧
    dispatchClick [0] "uuid-A" printingState = printingState ∧
    hoverOver [0] printingState = printingState ∧
    nodeIsHovering [0] printingState = false ∧
    selectTriggerProps printingState.mode = ⟨false, false, false⟩ :=
  printing_mode_noop [0] "uuid-A" printingState rfl

/-- C7: a node renders its editable form only when it is the selected node
and the global edit flag is set; hence two nodes with distinct uuids are
never both in the editing sub-state. -/
theorem editing_at_most_one (s : SessionState) :
    (∀ u, nodeRendersEditableForm u s = true →
      s.editFlag = true ∧ s.selectedUuid = some u) ∧
    (∀ u1 u2, u1 ≠ u2 →
      ¬(nodeRendersEditableForm u1 s = true ∧ nodeRendersEditableForm u2 s = true)) := by
  constructor
  · intro u hu
    unfold nodeRendersEditableForm isSelected at hu
    simp at hu
    exact ⟨hu.1, hu.2⟩
  · rintro u1 u2 hne ⟨h1, h2⟩
    unfold nodeRendersEditableForm isSelected at h1 h2
    simp at h1 h2
    exact hne (Option.some.inj (h1.2.symm.trans h2.2))

/-- C7 witness: with A selected and the edit flag set, A and B are not both
editing. -/
theorem editing_at_most_one_witness :
    ¬(nodeRendersEditableForm "uuid-A" editingState = true ∧
      nodeRendersEditableForm "uuid-B" editingState = true) :=
  (editing_at_most_one editingState).2 "uuid-A" "uuid-B" (by decide)

/-- C10: in the template-changing mode — a mode distinct from printing — a
node attaches no handlers (`selectTriggerProps` is empty), so hover and
click events delivered to it never reach `hoverOver`, `hoverOut` or
`setSelected`: the state is unchanged. -/
theorem changingTemplate_disables_interaction (id : IdType) (uuid : String)
    (s : SessionState) (hmode : s.mode = .changingTemplate) :
    selectTriggerProps s.mode = ⟨false, false, false⟩ ∧
    dispatchMouseEnter id s = s ∧
    dispatchMouseLeave id s = s ∧
    dispatchClick id uuid s = s ∧
    EditorMode.changingTemplate ≠ EditorMode.printing := by
  refine ⟨?_, ?_, ?_, ?_, by decide⟩ <;>
    simp [dispatchMouseEnter, dispatchMouseLeave, dispatchClick,
      selectTriggerProps, isEditable, isPrinting, hmode]

/-- C10 witness: in a template-changing session, events on node B are
absorbed. -/
theorem changingTemplate_disables_interaction_witness :
    selectTriggerProps changingTemplateState.mode = ⟨false, false, false⟩ ∧
    dispatchMouseEnter [0, 0] changingTemplateState = changingTemplateState ∧
    dispatchMouseLeave [0, 0] changingTemplateState = changingTemplateState ∧
    dispatchClick [0, 0] "uuid-B" changingTemplateState = changingTemplateState ∧
    EditorMode.changingTemplate ≠ EditorMode.printing :=
  changingTemplate_disables_interaction [0, 0] "uuid-B" changingTemplateState rfl

/-- C4: for a valid address, `toggleHidden` twice restores the tree exactly;
a single `toggleHidden` flips the resolved node's `hidden` flag and leaves
the uuid and data of every node, and the `hidden` flag of every other node,
unchanged. -/
theorem toggleHidden_spec (a : IdType) (t : List ResumeNode) (n : ResumeNode)
    (hres : resolve a t = some n) :
    ∃ t', toggleHidden a t = some t' ∧
      toggleHidden a t' = some t ∧
      resolve a t' = some (flipHidden n) ∧
      (resolve a t').map ResumeNode.hidden = some (!n.hidden) ∧
      ∀ b, b ≠ a →
        (resolve b t').map ResumeNode.uuid = (resolve b t).map ResumeNode.uuid ∧
        (resolve b t').map ResumeNode.data = (resolve b t).map ResumeNode.data ∧
        (resolve b t').map ResumeNode.hidden = (resolve b t).map ResumeNode.hidden := by
  cases hmod : modifyForest a flipHidden t with
  | none =>
    rw [modifyForest_eq_none_iff] at hmod
    simp [hres] at hmod
  | some t' =>
    refine ⟨t', hmod, ?_, ?_, ?_, ?_⟩
    · show modifyForest a flipHidden t' = some t
      rw [modifyForest_comp a flipHidden flipHidden t t' hmod]
      have hfun : (fun x => flipHidden (flipHidden x)) = (fun x : ResumeNode => x) := by
        funext x
        simp
      rw [hfun]
      exact modifyForest_id a t n hres
    · rw [resolve_modifyForest_self a flipHidden t t' hmod, hres]
      rfl
    · rw [resolve_modifyForest_self a flipHidden t t' hmod, hres]
      simp
    · intro b hb
      exact resolve_modifyForest_ne a flipHidden children_flipHidden t t' hmod b hb

/-- C4 witness: toggling B's hidden flag in the example tree and toggling it
again restores the tree. -/
theorem toggleHidden_spec_witness :
    ∃ t', toggleHidden [0, 0] exampleTree = some t' ∧
      toggleHidden [0, 0] t' = some exampleTree ∧
      resolve [0, 0] t' = some (flipHidden nodeB) ∧
      (resolve [0, 0] t').map ResumeNode.hidden = some (!nodeB.hidden) ∧
      ∀ b, b ≠ [0, 0] →
        (resolve b t').map ResumeNode.uuid = (resolve b exampleTree).map ResumeNode.uuid ∧
        (resolve b t').map ResumeNode.data = (resolve b exampleTree).map ResumeNode.data ∧
        (resolve b t').map ResumeNode.hidden = (resolve b exampleTree).map ResumeNode.hidden :=
  toggleHidden_spec [0, 0] exampleTree nodeB rfl

/-- C5: `update` on an address that fails to resolve returns `InvalidAddress`
synchronously and the caller's tree is unchanged; on an address that
resolves it merges the value under the key in the node's data, and the same
call again is idempotent; concretely `update([0,0], "title", "X")` sets
`data.title == "X"` and `update([1], ...)` fails on the example tree. -/
theorem update_spec (a : IdType) (k v : String) (t : List ResumeNode) :
    (resolve a t = none →
      update a k v t = .error .invalidAddress ∧
      applyUpdate a k v t = (t, some .invalidAddress)) ∧
    (∀ n, resolve a t = some n →
      ∃ t', update a k v t = .ok t' ∧
        resolve a t' = some (n.setData k v) ∧
        (resolve a t').map (fun m => lookupKey k m.data) = some (some v) ∧
        update a k v t' = .ok t') ∧
    (update [0, 0] "title" "X" exampleTree
      = .ok [.mk "uuid-A" false [] [.mk "uuid-B" false [("title", "X")] []]]) ∧
    update [1] "title" "X" exampleTree = .error .invalidAddress ∧
    applyUpdate [1] "title" "X" exampleTree = (exampleTree, some .invalidAddress) := by
  refine ⟨?_, ?_, by rfl, by rfl, by rfl⟩
  · intro hres
    have hmod : modifyForest a (fun x => x.setData k v) t = none := by
      rw [modifyForest_eq_none_iff]
      exact hres
    constructor
    · unfold update
      rw [hmod]
    · unfold applyUpdate update
      rw [hmod]
  · intro n hres
    cases hmod : modifyForest a (fun x => x.setData k v) t with
    | none =>
      rw [modifyForest_eq_none_iff] at hmod
      simp [hres] at hmod
    | some t' =>
      have hok : update a k v t = .ok t' := by
        unfold update
        rw [hmod]
      have hres2 : resolve a t' = some (n.setData k v) := by
        rw [resolve_modifyForest_self a _ t t' hmod, hres]
        rfl
      refine ⟨t', hok, hres2, ?_, ?_⟩
      · rw [hres2]
        simp [lookupKey_setKey_self]
      · have hcomp := modifyForest_comp a (fun x => x.setData k v)
          (fun x => x.setData k v) t t' hmod
        have hfun : (fun x : ResumeNode => (x.setData k v).setData k v)
            = (fun x : ResumeNode => x.setData k v) := by
          funext x
          exact setData_setData k v x
        unfold update
        rw [hcomp, hfun, hmod]

/-- C5 witness: updating B's title in the example tree succeeds, stores the
value, and is idempotent. -/
theorem update_spec_witness :
    ∃ t', update [0, 0] "title" "X" exampleTree = .ok t' ∧
      resolve [0, 0] t' = some (nodeB.setData "title" "X") ∧
      (resolve [0, 0] t').map (fun m => lookupKey "title" m.data) = some (some "X") ∧
      update [0, 0] "title" "X" t' = .ok t' :=
  (update_spec [0, 0] "title" "X" exampleTree).2.1 nodeB rfl

/-- The `BasicEntryProps` fields the toolbar resolver reads: the `title`
and `subtitle` text-field arrays, possibly absent. -/
structure EntryNodeProps where
  title : Option (List String)
  subtitle : Option (List String)
deriving DecidableEq, Repr

/-- `addTitleField` of `controls/ToolbarOptions.tsx`: the node's title array
(or a fresh one) with one more empty field appended. -/
def addTitleField (node : EntryNodeProps) : List String :=
  node.title.getD [] ++ [""]

/-- `addSubtitleField` of `controls/ToolbarOptions.tsx`. -/
def addSubtitleField (node : EntryNodeProps) : List String :=
  node.subtitle.getD [] ++ [""]

/-- A toolbar option: a leaf holding the `(key, value)` its action sends to
the update callback, or a titled submenu. -/
inductive ToolbarItem where
  | leaf : String → String × List String → ToolbarItem
  | submenu : String → List ToolbarItem → ToolbarItem
deriving Repr

/-- `ToolbarOptions` of `controls/ToolbarOptions.tsx`: switch on the type
discriminator — `Entry.name` (the string `"Entry"`) yields the title
options, every other type falls through to the empty list. -/
def ToolbarOptions (ty : String) (node : EntryNodeProps) : List ToolbarItem :=
  if ty = "Entry" then
    [.submenu "Title Options"
      [.leaf "Add another title field" ("title", addTitleField node),
       .leaf "Add another subtitle field" ("subtitle", addSubtitleField node)]]
  else []

/-- C8: for every type discriminator with no registered resolver arm and
every node value, `ToolbarOptions` returns the empty option list (it is a
total function, so it never raises). -/
theorem ToolbarOptions_unregistered (ty : String) (node : EntryNodeProps)
    (hty : ty ≠ "Entry") : ToolbarOptions ty node = [] := by
  unfold ToolbarOptions
  simp [hty]

/-- C8 witness: `ToolbarOptions "unknown-type"` is empty. -/
theorem ToolbarOptions_unregistered_witness :
    ToolbarOptions "unknown-type" ⟨none, none⟩ = [] :=
  ToolbarOptions_unregistered "unknown-type" ⟨none, none⟩ (by decide)

mutual
/-- Modelled from the spec: depth-first id derivation — the `(id, node)`
pairs of the subtree rooted at a node whose own derived id is `pid`. -/
def pairsOfNode (pid : IdType) : ResumeNode → List (IdType × ResumeNode)
  | .mk u h d cs => (pid, .mk u h d cs) :: pairsOfChildren pid 0 cs

/-- Modelled from the spec: the pairs of a children list whose first element
sits at sibling index `i` under the parent id `pid`. -/
def pairsOfChildren (pid : IdType) (i : Nat) : List ResumeNode → List (IdType × ResumeNode)
  | [] => []
  | c :: rest => pairsOfNode (pid ++ [i]) c ++ pairsOfChildren pid (i + 1) rest
end

/-- All `(id, node)` pairs a snapshot derives: roots at `[0], [1], ...`. -/
def allPairs (t : List ResumeNode) : List (IdType × ResumeNode) :=
  pairsOfChildren [] 0 t

/-- All derived ids of a snapshot. -/
def allIds (t : List ResumeNode) : List IdType :=
  (allPairs t).map Prod.fst

mutual
theorem mem_fst_pairsOfNode (pid : IdType) (n : ResumeNode) (p : IdType × ResumeNode)
    (hp : p ∈ pairsOfNode pid n) :
    p.1 = pid ∨ ∃ j rest, p.1 = pid ++ j :: rest := by
  cases n with
  | mk u h d cs =>
    rw [pairsOfNode] at hp
    rcases List.mem_cons.mp hp with h1 | h1
    · left
      rw [h1]
    · right
      obtain ⟨j, rest, _, hid⟩ := mem_fst_pairsOfChildren pid 0 cs p h1
      exact ⟨j, rest, hid⟩

theorem mem_fst_pairsOfChildren (pid : IdType) (i : Nat) (cs : List ResumeNode)
    (p : IdType × ResumeNode) (hp : p ∈ pairsOfChildren pid i cs) :
    ∃ j rest, (i ≤ j ∧ j < i + cs.length) ∧ p.1 = pid ++ j :: rest := by
  cases cs with
  | nil => simp [pairsOfChildren] at hp
  | cons c rest2 =>
    rw [pairsOfChildren] at hp
    rcases List.mem_append.mp hp with h1 | h1
    · rcases mem_fst_pairsOfNode (pid ++ [i]) c p h1 with h2 | h2
      · refine ⟨i, [], ⟨le_refl i, by simp⟩, ?_⟩
        rw [h2]
      · obtain ⟨j, r, hid⟩ := h2
        refine ⟨i, j :: r, ⟨le_refl i, by simp⟩, ?_⟩
        rw [hid]
        simp
    · obtain ⟨j, r, ⟨hj1, hj2⟩, hid⟩ := mem_fst_pairsOfChildren pid (i + 1) rest2 p h1
      refine ⟨j, r, ⟨by omega, ?_⟩, hid⟩
      simp only [List.length_cons]
      omega
end



/-- Ids coming from a node block and from its later siblings differ: the
entry at the parent's depth disagrees. -/
theorem block_ids_disjoint (pid : IdType) (i : Nat) (tail : List Nat)
    (j2 : Nat) (r2 : List Nat) (hj2 : i + 1 ≤ j2)
    (heq : pid ++ i :: tail = pid ++ j2 :: r2) : False := by
  have h2 := List.append_cancel_left heq
  have h3 : i = j2 := (List.cons.injEq _ _ _ _ ▸ h2).1
  omega

mutual
theorem nodup_pairsOfNode (pid : IdType) (n : ResumeNode) :
    ((pairsOfNode pid n).map Prod.fst).Nodup := by
  cases n with
  | mk u h d cs =>
    rw [pairsOfNode]
    simp only [List.map_cons, List.nodup_cons]
    constructor
    · intro hmem
      obtain ⟨p, hp, hfst⟩ := List.mem_map.mp hmem
      obtain ⟨j, r, _, hid⟩ := mem_fst_pairsOfChildren pid 0 cs p hp
      rw [hfst] at hid
      have := congrArg List.length hid
      simp at this
    · exact nodup_pairsOfChildren pid 0 cs

theorem nodup_pairsOfChildren (pid : IdType) (i : Nat) (cs : List ResumeNode) :
    ((pairsOfChildren pid i cs).map Prod.fst).Nodup := by
  cases cs with
  | nil => simp [pairsOfChildren]
  | cons c rest2 =>
    rw [pairsOfChildren, List.map_append, List.nodup_append]
    refine ⟨nodup_pairsOfNode (pid ++ [i]) c, nodup_pairsOfChildren pid (i + 1) rest2, ?_⟩
    intro id hid1 hid2
    obtain ⟨p1, hp1, hf1⟩ := List.mem_map.mp hid1
    obtain ⟨p2, hp2, hf2⟩ := List.mem_map.mp hid2
    obtain ⟨j2, r2, ⟨hj2a, _⟩, hid2e⟩ := mem_fst_pairsOfChildren pid (i + 1) rest2 p2 hp2
    have hone : ∃ tail, p1.1 = pid ++ i :: tail := by
      rcases mem_fst_pairsOfNode (pid ++ [i]) c p1 hp1 with h2 | h2
      · exact ⟨[], h2⟩
      · obtain ⟨j, r, hid1e⟩ := h2
        refine ⟨j :: r, ?_⟩
        rw [hid1e]
        simp
    obtain ⟨tail, hone⟩ := hone
    apply block_ids_disjoint pid i tail j2 r2 hj2a
    rw [← hone, ← hid2e, hf1, hf2]
end


mutual
theorem resolve_pairsOfNode (pid : IdType) (n : ResumeNode) (p : IdType × ResumeNode)
    (hp : p ∈ pairsOfNode pid n) (suffix : List Nat) (hs : p.1 = pid ++ suffix) :
    resolveIn suffix n = some p.2 := by
  cases n with
  | mk u h d cs =>
    rw [pairsOfNode] at hp
    rcases List.mem_cons.mp hp with h1 | h1
    · have hfst : p.1 = pid := by rw [h1]
      have hsuf : suffix = [] := by
        rw [hfst] at hs
        have := congrArg List.length hs
        simp at this
        exact this
      rw [hsuf, resolveIn_nil, h1]
    · obtain ⟨j, tail, c, hsuf, hij, hg, hres⟩ :=
        resolve_pairsOfChildren pid 0 cs p h1 suffix hs
      rw [hsuf, resolveIn_cons]
      have hg2 : (ResumeNode.mk u h d cs).children[j]? = some c := by
        simpa using hg
      rw [hg2]
      exact hres

theorem resolve_pairsOfChildren (pid : IdType) (i : Nat) (cs : List ResumeNode)
    (p : IdType × ResumeNode) (hp : p ∈ pairsOfChildren pid i cs)
    (suffix : List Nat) (hs : p.1 = pid ++ suffix) :
    ∃ j tail c, suffix = j :: tail ∧ i ≤ j ∧ cs[j - i]? = some c ∧
      resolveIn tail c = some p.2 := by
  cases cs with
  | nil => simp [pairsOfChildren] at hp
  | cons c0 rest2 =>
    rw [pairsOfChildren] at hp
    rcases List.mem_append.mp hp with h1 | h1
    · have hshape : ∃ tail, p.1 = (pid ++ [i]) ++ tail := by
        rcases mem_fst_pairsOfNode (pid ++ [i]) c0 p h1 with h2 | h2
        · exact ⟨[], by rw [h2, List.append_nil]⟩
        · obtain ⟨j, r, hid⟩ := h2
          exact ⟨j :: r, hid⟩
      obtain ⟨tail, hshape⟩ := hshape
      have hsuf : suffix = i :: tail := by
        rw [hshape] at hs
        rw [List.append_assoc] at hs
        have h4 := List.append_cancel_left hs.symm
        simpa using h4
      refine ⟨i, tail, c0, hsuf, le_refl i, by simp, ?_⟩
      exact resolve_pairsOfNode (pid ++ [i]) c0 p h1 tail hshape
    · obtain ⟨j, tail, c, hsuf, hij, hg, hres⟩ :=
        resolve_pairsOfChildren pid (i + 1) rest2 p h1 suffix hs
      refine ⟨j, tail, c, hsuf, by omega, ?_, hres⟩
      have hji : j - i = (j - (i + 1)) + 1 := by omega
      rw [hji]
      simpa using hg
end

/-- C9: the derived addresses — each root gets its index in the root list,
each child its parent's id with its sibling index appended — are pairwise
distinct across any snapshot, and each derived id resolves to exactly the
node it was derived for (so each id identifies exactly one node); on the
example tree the ids are `[0]` for A and `[0, 0]` for B. -/
theorem derived_ids_spec (t : List ResumeNode) :
    (allIds t).Nodup ∧
    (∀ p, p ∈ allPairs t → resolve p.1 t = some p.2) ∧
    (∀ id n1 n2, (id, n1) ∈ allPairs t → (id, n2) ∈ allPairs t → n1 = n2) ∧
    allIds exampleTree = [[0], [0, 0]] := by
  have hres : ∀ p, p ∈ allPairs t → resolve p.1 t = some p.2 := by
    intro p hp
    obtain ⟨j, tail, c, hsuf, _, hg, hres⟩ :=
      resolve_pairsOfChildren [] 0 t p hp p.1 (by simp)
    rw [hsuf, resolve_cons]
    have hg2 : t[j]? = some c := by simpa using hg
    rw [hg2]
    exact hres
  refine ⟨nodup_pairsOfChildren [] 0 t, hres, ?_, by rfl⟩
  intro id n1 n2 h1 h2
  have r1 := hres (id, n1) h1
  have r2 := hres (id, n2) h2
  rw [r1] at r2
  exact Option.some.inj r2

/-- C9 witness: B's derived id `[0, 0]` resolves to B in the example
tree. -/
theorem derived_ids_spec_witness :
    resolve [0, 0] exampleTree = some nodeB :=
  (derived_ids_spec exampleTree).2.1 ([0, 0], nodeB)
    (List.mem_cons_of_mem _ (List.mem_cons_self _ _))

end Experiencer
